import Mathlib

/-!
Shallow embedding of the ThreadWeaver core (WeaverImpl.cpp, JobCollection.cpp).

Jobs are identified by natural numbers; their immutable attributes are given
by environment maps: a priority map (Nat to Int, mirroring the signed
priority returned by priority()) and a policy-outcome map (Nat to List Bool,
the sequence of canRun answers the job's queue policies give on one
admission attempt, in policy-list order).  Job statuses live in a map inside
the weaver state, standing for the status field of the heap-allocated job
objects.  Condition-variable signals and calls out to job callbacks are
modelled as data recorded in the result of each operation.
-/

/-- The six weaver states (StateId enumeration). -/
inductive StateId
  | InConstruction
  | WorkingHard
  | Suspending
  | Suspended
  | ShuttingDown
  | Destructed
deriving DecidableEq, Repr

/-- Job status values (Job::Status enumeration, the members used by the core). -/
inductive JobStatus
  | New
  | Queued
  | Running
  | Success
  | Failed
  | Aborted
deriving DecidableEq, Repr

/-! ## canBeExecuted (WeaverImpl.cpp lines 427-459)

A queue-policy consultation during one admission attempt is an event:
either a canRun call or a release call, tagged with the index of the policy
in the job's policy list. -/

/-- An interaction with one queue policy, identified by its position in the
job's policy list. -/
inductive PolicyEvent
  | canRunCall (index : Nat)
  | releaseCall (index : Nat)
deriving DecidableEq, Repr

/-- Result of WeaverImpl::canBeExecuted: the returned Bool, the indices of
the policies still acquired when the function returns, and the ordered
trace of policy interactions it performed. -/
structure CanBeExecutedResult where
  success : Bool
  held : List Nat
  trace : List PolicyEvent
deriving DecidableEq, Repr

/-- The canRun loop of WeaverImpl::canBeExecuted: walk the policy outcomes
from position i; on a true outcome append the index to the acquired list
and continue, on the first false outcome stop.  Returns (success, acquired
indices in order, canRun calls in order). -/
def canRunLoop : List Bool → Nat → Bool × List Nat × List PolicyEvent
  | [], _ => (true, [], [])
  | b :: rest, i =>
    if b then
      let r := canRunLoop rest (i + 1)
      (r.1, i :: r.2.1, PolicyEvent.canRunCall i :: r.2.2)
    else
      (false, [], [PolicyEvent.canRunCall i])

/-- WeaverImpl::canBeExecuted, for a job whose policies answer as in
outcomes: run the canRun loop; if it failed, release every previously
acquired policy in order and return false, otherwise return true with all
policies still acquired. -/
def canBeExecuted (outcomes : List Bool) : CanBeExecutedResult :=
  let r := canRunLoop outcomes 0
  if r.1 then
    { success := true, held := r.2.1, trace := r.2.2 }
  else
    { success := false, held := [],
      trace := r.2.2 ++ r.2.1.map PolicyEvent.releaseCall }

/-- Admission verdict for job j under the policy-outcome map pol: the Bool
returned by canBeExecuted. -/
def canExecJob (pol : Nat → List Bool) (j : Nat) : Bool :=
  (canBeExecuted (pol j)).success

/-! ## Weaver state (WeaverImpl member variables) -/

/-- The WeaverImpl state guarded by the weaver mutex: the assignment list
(job ids in queue order), the job-status heap, the active worker count, the
current state id, the thread inventory (one Bool per thread: true when the
thread is executing a job deliver by applyForWork, the ghost needed to relate
active to the inventory size), and the inventory cap. -/
structure Weaver where
  assignments : List Nat
  status : Nat → JobStatus
  active : Nat
  stateId : StateId
  inventory : List Bool
  inventoryMax : Int

/-- WeaverImpl::isEmpty_p. -/
def isEmpty_p (w : Weaver) : Bool :=
  w.assignments.isEmpty

/-- WeaverImpl::isIdle_p. -/
def isIdle_p (w : Weaver) : Bool :=
  isEmpty_p w && w.active == 0

/-- WeaverImpl::queueLength_p. -/
def queueLength_p (w : Weaver) : Nat :=
  w.assignments.length

/-- WeaverImpl::currentNumberOfThreads_p. -/
def currentNumberOfThreads_p (w : Weaver) : Nat :=
  w.inventory.length

/-- WeaverImpl::maximumNumberOfThreads_p. -/
def maximumNumberOfThreads_p (w : Weaver) : Int :=
  w.inventoryMax

/-- WeaverImpl::setMaximumNumberOfThreads_p: store the new cap, nothing
else; the inventory is not shrunk. -/
def setMaximumNumberOfThreads_p (w : Weaver) (cap : Int) : Weaver :=
  { w with inventoryMax := cap }

/-- WeaverImpl::adjustInventory: reserve is the room left below the cap; if
it is positive, create min(reserve, numberOfNewJobs) new (idle) threads and
append them to the inventory. -/
def adjustInventory (w : Weaver) (numberOfNewJobs : Nat) : Weaver :=
  let reserve : Int := w.inventoryMax - w.inventory.length
  if 0 < reserve then
    { w with inventory :=
        w.inventory ++ List.replicate (min reserve.toNat numberOfNewJobs) false }
  else
    w

/-! ## enqueue_p (WeaverImpl.cpp lines 230-254) -/

/-- Length of the maximal trailing run of l whose priority is below p: the
number of loop iterations of the insertion-position search
(while i larger than 0 and priority at i-1 below p, decrement i). -/
def trailingBelow (prio : Nat → Int) (p : Int) (l : List Nat) : Nat :=
  (l.reverse.takeWhile (fun j => decide (prio j < p))).length

/-- The insertion position computed by the while loop in enqueue_p: start
at the list length and walk back over the trailing run of strictly lower
priorities. -/
def insertPos (prio : Nat → Int) (p : Int) (l : List Nat) : Nat :=
  l.length - trailingBelow prio p l

/-- The insertion performed by enqueue_p for one job: insert at the
position found by the backwards walk (the append branch for an empty list
coincides with inserting at position 0). -/
def enqueueInsert (prio : Nat → Int) (l : List Nat) (j : Nat) : List Nat :=
  l.insertIdx (insertPos prio (prio j) l) j

/-- WeaverImpl::enqueue_p: for each non-null job, adjust the inventory by
one, insert the job at the computed position and set its status to Queued.
Null entries are skipped, the empty batch is a no-op. -/
def enqueue_p (prio : Nat → Int) (w : Weaver) (jobs : List (Option Nat)) : Weaver :=
  jobs.foldl
    (fun acc oj =>
      match oj with
      | none => acc
      | some job =>
        let w1 := adjustInventory acc 1
        { w1 with
          assignments := enqueueInsert prio w1.assignments job,
          status := Function.update w1.status job JobStatus.Queued })
    w

/-! ## dequeue_p (WeaverImpl.cpp lines 262-281 and 289-298) -/

/-- Result of the single-job dequeue: the weaver afterwards, the returned
Bool, whether aboutToBeDequeued was delivered to the job, and whether
jobFinished was signalled. -/
structure DequeueResult where
  weaver : Weaver
  found : Bool
  aboutToBeDequeuedDelivered : Bool
  jobFinishedSignaled : Bool

/-- WeaverImpl::dequeue_p(job).  The aboutToBeDequeued callback may itself
mutate the assignment list (a JobCollection dequeues its elements there);
its effect on the list is the parameter cb.  The code looks the job up, and
if present delivers the callback, looks the position up again in the
post-callback list, removes the job there, sets its status to New and wakes
jobFinished; otherwise it returns false having changed nothing. -/
def dequeue_single (cb : List Nat → List Nat) (w : Weaver) (job : Nat) : DequeueResult :=
  if w.assignments.contains job then
    let a1 := cb w.assignments
    let newPosition := a1.indexOf job
    { weaver := { w with
        assignments := a1.eraseIdx newPosition,
        status := Function.update w.status job JobStatus.New },
      found := true,
      aboutToBeDequeuedDelivered := true,
      jobFinishedSignaled := true }
  else
    { weaver := w, found := false,
      aboutToBeDequeuedDelivered := false, jobFinishedSignaled := false }

/-- Result of the remove-all dequeue: the weaver afterwards, the jobs that
received aboutToBeDequeued in order, and whether jobFinished was
signalled. -/
structure DequeueAllResult where
  weaver : Weaver
  delivered : List Nat
  jobFinishedSignaled : Bool

/-- WeaverImpl::dequeue_p() (remove all): deliver aboutToBeDequeued to
every queued job in order, then clear the assignment list.  No status is
written and jobFinished is not woken (callbacks are modelled as
notifications only). -/
def dequeue_all (w : Weaver) : DequeueAllResult :=
  { weaver := { w with assignments := [] },
    delivered := w.assignments,
    jobFinishedSignaled := false }

/-! ## takeFirstAvailableJobOrSuspendOrWait (WeaverImpl.cpp lines 504-546) -/

/-- The selection walk of takeFirstAvailableJobOrSuspendOrWait: find the
first job admitted by canBeExecuted, remove it from the list, and return it
with the remaining list; none when no job is admissible. -/
def takeFirstExecutable (pol : Nat → List Bool) : List Nat → Option (Nat × List Nat)
  | [] => none
  | j :: rest =>
    if canExecJob pol j then
      some (j, rest)
    else
      match takeFirstExecutable pol rest with
      | some (k, rest1) => some (k, j :: rest1)
      | none => none

/-- Result of takeFirstAvailableJobOrSuspendOrWait: the weaver afterwards,
the job handed to the thread (none when no job is assigned), and whether
the calling thread blocks on jobAvailable before returning. -/
structure TakeResult where
  weaver : Weaver
  job : Option Nat
  blocked : Bool

/-- WeaverImpl::takeFirstAvailableJobOrSuspendOrWait.  If the thread was
busy, the active count is decremented.  If suspendIfInactive holds with the
active count now zero in state Suspending, move to Suspended and return no
job.  If the state is not WorkingHard, or justReturning holds, return no
job.  Otherwise walk the assignments in order, remove the first admissible
job, increment the active count and return it; when none is admissible the
thread blocks on jobAvailable and no job is returned. -/
def takeFirstAvailableJobOrSuspendOrWait (pol : Nat → List Bool) (w : Weaver)
    (threadWasBusy suspendIfInactive justReturning : Bool) : TakeResult :=
  let w1 := if threadWasBusy then { w with active := w.active - 1 } else w
  if suspendIfInactive && w1.active == 0 && (w1.stateId == StateId.Suspending) then
    { weaver := { w1 with stateId := StateId.Suspended }, job := none, blocked := false }
  else if !(w1.stateId == StateId.WorkingHard) || justReturning then
    { weaver := w1, job := none, blocked := false }
  else
    match takeFirstExecutable pol w1.assignments with
    | some (j, rest) =>
      { weaver := { w1 with assignments := rest, active := w1.active + 1 },
        job := some j, blocked := false }
    | none =>
      { weaver := w1, job := none, blocked := true }

/-! ## The weaver transition system

One step per mutating entry point of WeaverImpl reachable through the
public API (shutdown excluded: it tears the inventory down).  The worker
protocol (a thread passes wasBusy exactly when it executed a job since its
previous applyForWork) is encoded by the per-thread busy flag stored in the
inventory list. -/

/-- One applyForWork call by thread t: the thread reports wasBusy from its
flag, the weaver runs takeFirstAvailableJobOrSuspendOrWait, and the flag is
updated to whether a job was assigned. -/
def applyStep (pol : Nat → List Bool) (w : Weaver) (t : Nat)
    (susp just : Bool) : Weaver :=
  let wasBusy := w.inventory.getD t false
  let r := takeFirstAvailableJobOrSuspendOrWait pol w wasBusy susp just
  { r.weaver with inventory := r.weaver.inventory.set t r.job.isSome }

/-- The mutating operations of the weaver, as a step relation. -/
inductive Step (prio : Nat → Int) (pol : Nat → List Bool) : Weaver → Weaver → Prop
  | enqueue (w : Weaver) (jobs : List (Option Nat)) :
      Step prio pol w (enqueue_p prio w jobs)
  | dequeueSingle (w : Weaver) (cb : List Nat → List Nat) (job : Nat) :
      Step prio pol w (dequeue_single cb w job).weaver
  | dequeueAll (w : Weaver) :
      Step prio pol w (dequeue_all w).weaver
  | applyForWork (w : Weaver) (t : Nat) (susp just : Bool)
      (ht : t < w.inventory.length) :
      Step prio pol w (applyStep pol w t susp just)
  | setMax (w : Weaver) (cap : Int) (hcap : 0 < cap) :
      Step prio pol w (setMaximumNumberOfThreads_p w cap)
  | setState (w : Weaver) (id : StateId) :
      Step prio pol w { w with stateId := id }

/-- Reachability: the reflexive-transitive closure of the step relation. -/
def Reach (prio : Nat → Int) (pol : Nat → List Bool) : Weaver → Weaver → Prop :=
  Relation.ReflTransGen (Step prio pol)

/-- The weaver as built by the constructor: empty queue, all jobs New, no
active worker, state WorkingHard, empty inventory, cap m (the constructor
sets m to the maximum of 4 and twice the hardware concurrency). -/
def initialWeaver (m : Int) : Weaver :=
  { assignments := []
    status := fun _ => JobStatus.New
    active := 0
    stateId := StateId.WorkingHard
    inventory := []
    inventoryMax := m }

/-- Number of busy threads in the inventory. -/
def busyCount (w : Weaver) : Nat :=
  w.inventory.count true

/-! ## JobCollection (JobCollection.cpp) -/

/-- The JobCollection private state: the element list, the two atomic
counters, the selfIsExecuting flag, the collection's own status, whether
the api pointer is bound, whether freeQueuePolicyResources has run for
self, and whether the self reference is held. -/
structure Coll where
  elements : List Nat
  jobCounter : Int
  jobsStarted : Int
  selfIsExecuting : Bool
  status : JobStatus
  apiBound : Bool
  policiesFreed : Bool
  selfHeld : Bool
deriving DecidableEq, Repr

/-- JobCollection::finalCleanup: free the queue-policy resources held by
self, set the status to Success and clear the api binding. -/
def finalCleanup (c : Coll) : Coll :=
  { c with policiesFreed := true, status := JobStatus.Success, apiBound := false }

/-- JobCollection::dequeueElements: when not queued do nothing; otherwise
issue one dequeue call per element (returned as the list of job ids, in
order), swap the job counter to zero, and when the counter had not yet
reached zero run finalCleanup. -/
def dequeueElements (c : Coll) : Coll × List Nat :=
  if c.apiBound then
    let jobCount := c.jobCounter
    let c1 := { c with jobCounter := 0 }
    (if jobCount ≠ 0 then finalCleanup c1 else c1, c.elements)
  else
    (c, [])

/-- JobCollection::aboutToBeDequeued_locked: dequeue the elements with the
queue lock held, then clear the api binding. -/
def aboutToBeDequeuedColl (c : Coll) : Coll × List Nat :=
  let r := dequeueElements c
  ({ r.1 with apiBound := false }, r.2)

/-- Result of JobCollection::stop: the collection afterwards, whether the
collection itself was dequeued from the weaver, and the per-element dequeue
calls that were issued. -/
structure StopResult where
  coll : Coll
  selfDequeued : Bool
  calls : List Nat
deriving DecidableEq, Repr

/-- JobCollection::stop.  selfWasQueued says whether the weaver's
dequeue(self) finds the collection in its assignment list.  When the
collection is bound to a weaver: try to dequeue self; on success the weaver
delivers aboutToBeDequeued to the collection (which dequeues the elements
and clears the binding) and then sets the collection's status to New; on
failure dequeue each element individually. -/
def stopColl (selfWasQueued : Bool) (c : Coll) : StopResult :=
  if c.apiBound then
    if selfWasQueued then
      let r := aboutToBeDequeuedColl c
      { coll := { r.1 with status := JobStatus.New }, selfDequeued := true, calls := r.2 }
    else
      let r := dequeueElements c
      { coll := r.1, selfDequeued := false, calls := r.2 }
  else
    { coll := c, selfDequeued := false, calls := [] }

/-- Result of JobCollection::elementFinished: the collection afterwards,
the batch passed to the weaver's enqueue (none when no enqueue was issued),
whether finalCleanup ran, and whether defaultEnd was invoked on the
outermost self wrapper. -/
structure ElementFinishedResult where
  coll : Coll
  batch : Option (List Nat)
  cleanupRan : Bool
  defaultEndInvoked : Bool
deriving DecidableEq, Repr

/-- JobCollection::elementFinished (with JobCollection::enqueueElements
inlined at its only call site): when selfIsExecuting, store element
count plus one in the job counter, hand the whole element list to the
weaver in one enqueue call and clear selfIsExecuting; then decrement the
job counter; exactly when the decrement reaches zero, run finalCleanup,
invoke defaultEnd on the outermost self wrapper and drop the self
reference. -/
def elementFinished (c : Coll) : ElementFinishedResult :=
  let s := if c.selfIsExecuting then
    ({ c with jobCounter := (c.elements.length : Int) + 1, selfIsExecuting := false },
     some c.elements)
  else
    (c, none)
  let remainingJobs := s.1.jobCounter - 1
  let c2 := { s.1 with jobCounter := remainingJobs }
  if remainingJobs = 0 then
    { coll := { finalCleanup c2 with selfHeld := false },
      batch := s.2, cleanupRan := true, defaultEndInvoked := true }
  else
    { coll := c2, batch := s.2, cleanupRan := false, defaultEndInvoked := false }

/-! ## Helper lemmas: the canRun loop -/

lemma canRunLoop_all_true (outcomes : List Bool) (i : Nat)
    (h : outcomes.all id = true) :
    canRunLoop outcomes i =
      (true, List.range' i outcomes.length,
       (List.range' i outcomes.length).map PolicyEvent.canRunCall) := by
  induction outcomes generalizing i with
  | nil => rfl
  | cons b rest ih =>
    simp only [List.all_cons, Bool.and_eq_true, id_eq] at h
    obtain ⟨hb, hrest⟩ := h
    subst hb
    simp [canRunLoop, ih (i + 1) hrest, List.length_cons, List.range'_succ]

lemma canRunLoop_first_false (outcomes : List Bool) (i k : Nat)
    (htake : outcomes.take k = List.replicate k true)
    (hget : outcomes.get? k = some false) :
    canRunLoop outcomes i =
      (false, List.range' i k,
       (List.range' i (k + 1)).map PolicyEvent.canRunCall) := by
  induction k generalizing outcomes i with
  | zero =>
    cases outcomes with
    | nil => simp at hget
    | cons b rest =>
      simp only [List.get?_cons_zero, Option.some.injEq] at hget
      subst hget
      simp [canRunLoop, List.range'_succ]
  | succ k ih =>
    cases outcomes with
    | nil => simp at hget
    | cons b rest =>
      simp only [List.take_succ_cons, List.replicate_succ, List.cons.injEq] at htake
      obtain ⟨hb, hrest⟩ := htake
      subst hb
      simp only [List.get?_cons_succ] at hget
      simp [canRunLoop, ih rest (i + 1) hrest hget, List.range'_succ]

/-- C3: for every job, canBeExecuted consults the queue policies strictly in
list order; if every policy admits (also when the list is empty) it returns
true with all policies still acquired; at the first policy that refuses it
consults no further policy, releases exactly the previously admitted ones in
order, and returns false. -/
theorem canBeExecuted_consultation_order (outcomes : List Bool) :
    (outcomes.all id = true →
      canBeExecuted outcomes =
        { success := true,
          held := List.range outcomes.length,
          trace := (List.range outcomes.length).map PolicyEvent.canRunCall }) ∧
    (∀ k, outcomes.take k = List.replicate k true → outcomes.get? k = some false →
      canBeExecuted outcomes =
        { success := false,
          held := [],
          trace := (List.range (k + 1)).map PolicyEvent.canRunCall ++
                   (List.range k).map PolicyEvent.releaseCall }) := by
  constructor
  · intro h
    rw [canBeExecuted, canRunLoop_all_true outcomes 0 h, List.range_eq_range']
    rfl
  · intro k htake hget
    rw [canBeExecuted, canRunLoop_first_false outcomes 0 k htake hget,
        List.range_eq_range', List.range_eq_range']
    rfl

/-- Witness for C3 at a concrete input: two policies, the second refuses;
canRun is called on policies 0 and 1 in order, policy 0 alone is released,
and the verdict is false with nothing held. -/
theorem canBeExecuted_consultation_order_witness :
    ([true, false] : List Bool).take 1 = List.replicate 1 true ∧
    ([true, false] : List Bool).get? 1 = some false ∧
    canBeExecuted [true, false] =
      { success := false, held := [],
        trace := [PolicyEvent.canRunCall 0, PolicyEvent.canRunCall 1,
                  PolicyEvent.releaseCall 0] } := by
  refine ⟨by decide, by decide, ?_⟩
  have h := (canBeExecuted_consultation_order [true, false]).2 1 (by decide) (by decide)
  simpa using h

/-- C9: isIdle_p returns true exactly when the assignment list is empty and
the active count is zero (equivalently, queueLength_p is zero). -/
theorem isIdle_p_iff (w : Weaver) :
    isIdle_p w = true ↔ queueLength_p w = 0 ∧ w.active = 0 := by
  simp [isIdle_p, isEmpty_p, queueLength_p, Bool.and_eq_true, List.isEmpty_iff,
        List.length_eq_zero, beq_iff_eq]

/-- Witness for C9 at a concrete input: the initial weaver is idle. -/
theorem isIdle_p_iff_witness :
    isIdle_p (initialWeaver 4) = true ∧
    queueLength_p (initialWeaver 4) = 0 ∧ (initialWeaver 4).active = 0 := by
  have h := (isIdle_p_iff (initialWeaver 4)).mpr ⟨rfl, rfl⟩
  exact ⟨h, rfl, rfl⟩

/-! ## Helper lemmas: the enqueue insertion position -/

/-- The maximal trailing run of l with priority strictly below p. -/
def belowSuffix (prio : Nat → Int) (p : Int) (l : List Nat) : List Nat :=
  (l.reverse.takeWhile (fun j => decide (prio j < p))).reverse

/-- What precedes the trailing run of l with priority strictly below p. -/
def frontPart (prio : Nat → Int) (p : Int) (l : List Nat) : List Nat :=
  (l.reverse.dropWhile (fun j => decide (prio j < p))).reverse

/-- Sortedness of an assignment list: priority descending from front to
back. -/
def SortedByPrio (prio : Nat → Int) (l : List Nat) : Prop :=
  l.Pairwise (fun a b => prio b ≤ prio a)

lemma frontPart_append_belowSuffix (prio : Nat → Int) (p : Int) (l : List Nat) :
    frontPart prio p l ++ belowSuffix prio p l = l := by
  rw [frontPart, belowSuffix, ← List.reverse_append, List.takeWhile_append_dropWhile,
      List.reverse_reverse]

lemma trailingBelow_eq_length (prio : Nat → Int) (p : Int) (l : List Nat) :
    trailingBelow prio p l = (belowSuffix prio p l).length := by
  rw [trailingBelow, belowSuffix, List.length_reverse]

lemma insertPos_eq_frontPart_length (prio : Nat → Int) (p : Int) (l : List Nat) :
    insertPos prio p l = (frontPart prio p l).length := by
  have h := frontPart_append_belowSuffix prio p l
  have hlen : (frontPart prio p l).length + (belowSuffix prio p l).length = l.length := by
    rw [← List.length_append, h]
  rw [insertPos, trailingBelow_eq_length, ← hlen, Nat.add_sub_cancel]

lemma insertIdx_append_self (xs ys : List Nat) (j : Nat) :
    (xs ++ ys).insertIdx xs.length j = xs ++ j :: ys := by
  induction xs with
  | nil => rfl
  | cons a xs ih => simpa [List.insertIdx_succ_cons] using ih

lemma enqueueInsert_eq_parts (prio : Nat → Int) (l : List Nat) (j : Nat) :
    enqueueInsert prio l j =
      frontPart prio (prio j) l ++ j :: belowSuffix prio (prio j) l := by
  have hsplit := frontPart_append_belowSuffix prio (prio j) l
  rw [enqueueInsert, insertPos_eq_frontPart_length]
  calc l.insertIdx (frontPart prio (prio j) l).length j
      = (frontPart prio (prio j) l ++ belowSuffix prio (prio j) l).insertIdx
          (frontPart prio (prio j) l).length j := by rw [hsplit]
    _ = frontPart prio (prio j) l ++ j :: belowSuffix prio (prio j) l :=
        insertIdx_append_self _ _ _

lemma mem_belowSuffix_lt (prio : Nat → Int) (p : Int) (l : List Nat) (x : Nat)
    (hx : x ∈ belowSuffix prio p l) : prio x < p := by
  rw [belowSuffix, List.mem_reverse] at hx
  simpa using List.mem_takeWhile_imp hx

lemma dropWhile_first_false (pred : Nat → Bool) (r : List Nat) :
    r.dropWhile pred = [] ∨
      ∃ a t, r.dropWhile pred = a :: t ∧ pred a = false := by
  induction r with
  | nil => exact Or.inl rfl
  | cons a t ih =>
    by_cases h : pred a = true
    · simpa [List.dropWhile_cons, h] using ih
    · exact Or.inr ⟨a, t, by simp [List.dropWhile_cons, h], by simpa using h⟩

lemma mem_frontPart_ge (prio : Nat → Int) (p : Int) (l : List Nat)
    (hsort : SortedByPrio prio l) (x : Nat)
    (hx : x ∈ frontPart prio p l) : p ≤ prio x := by
  have hfrontSorted : SortedByPrio prio (frontPart prio p l) := by
    have h := hsort
    rw [← frontPart_append_belowSuffix prio p l] at h
    exact (List.pairwise_append.1 h).1
  rcases dropWhile_first_false (fun j => decide (prio j < p)) l.reverse with hnil | ⟨a, t, heq, hfa⟩
  · rw [frontPart, hnil] at hx
    simp at hx
  · have hfront : frontPart prio p l = t.reverse ++ [a] := by
      rw [frontPart, heq, List.reverse_cons]
    have hap : p ≤ prio a := by
      have := of_decide_eq_false hfa
      omega
    rw [hfront] at hx hfrontSorted
    rcases List.mem_append.1 hx with hxt | hxa
    · have hcross := (List.pairwise_append.1 hfrontSorted).2.2
      have := hcross x hxt a (List.mem_singleton_self a)
      omega
    · have hxaEq : x = a := by simpa using hxa
      rw [hxaEq]
      exact hap

lemma enqueueInsert_sorted (prio : Nat → Int) (l : List Nat) (j : Nat)
    (h : SortedByPrio prio l) : SortedByPrio prio (enqueueInsert prio l j) := by
  rw [enqueueInsert_eq_parts]
  have hdecomp := h
  rw [← frontPart_append_belowSuffix prio (prio j) l] at hdecomp
  obtain ⟨hfront, hsuffix, hcross⟩ := List.pairwise_append.1 hdecomp
  apply List.pairwise_append.2
  refine ⟨hfront, ?_, ?_⟩
  · apply List.pairwise_cons.2
    refine ⟨fun b hb => le_of_lt (mem_belowSuffix_lt prio (prio j) l b hb), hsuffix⟩
  · intro a ha b hb
    rcases List.mem_cons.1 hb with hbj | hbs
    · rw [hbj]
      exact mem_frontPart_ge prio (prio j) l h a ha
    · calc prio b ≤ prio j := le_of_lt (mem_belowSuffix_lt prio (prio j) l b hbs)
        _ ≤ prio a := mem_frontPart_ge prio (prio j) l h a ha

lemma adjustInventory_assignments (w : Weaver) (n : Nat) :
    (adjustInventory w n).assignments = w.assignments := by
  rw [adjustInventory]
  split <;> rfl

lemma enqueue_p_sorted (prio : Nat → Int) (w : Weaver) (jobs : List (Option Nat))
    (hw : SortedByPrio prio w.assignments) :
    SortedByPrio prio ((enqueue_p prio w jobs).assignments) := by
  induction jobs generalizing w with
  | nil => exact hw
  | cons oj rest ih =>
    cases oj with
    | none => exact ih w hw
    | some job =>
      apply ih
      simp only [adjustInventory_assignments]
      exact enqueueInsert_sorted prio w.assignments job hw

/-- C2: into a priority-descending assignment list, the enqueue insertion
places the new job at the boundary position: everything it is inserted
before has strictly lower priority, every queued job of priority at least
the new one (in particular of equal priority) stays in front of it, and
the list, as well as the assignment list after any enqueue_p batch, is
again sorted by priority descending. -/
theorem enqueue_p_priority_insertion (prio : Nat → Int) (l : List Nat) (j : Nat)
    (w : Weaver) (jobs : List (Option Nat))
    (hl : SortedByPrio prio l) (hw : SortedByPrio prio w.assignments) :
    enqueueInsert prio l j =
      l.take (insertPos prio (prio j) l) ++ j :: l.drop (insertPos prio (prio j) l) ∧
    (∀ x ∈ l.drop (insertPos prio (prio j) l), prio x < prio j) ∧
    (∀ x ∈ l, prio j ≤ prio x → x ∈ l.take (insertPos prio (prio j) l)) ∧
    SortedByPrio prio (enqueueInsert prio l j) ∧
    SortedByPrio prio ((enqueue_p prio w jobs).assignments) := by
  have hsplit := frontPart_append_belowSuffix prio (prio j) l
  have hpos := insertPos_eq_frontPart_length prio (prio j) l
  have keyTake : ∀ (F B : List Nat), F ++ B = l → l.take F.length = F := by
    intro F B hFB
    rw [← hFB]
    exact List.take_left F B
  have keyDrop : ∀ (F B : List Nat), F ++ B = l → l.drop F.length = B := by
    intro F B hFB
    rw [← hFB]
    exact List.drop_left F B
  have htake : l.take (insertPos prio (prio j) l) = frontPart prio (prio j) l := by
    rw [hpos]
    exact keyTake _ _ hsplit
  have hdrop : l.drop (insertPos prio (prio j) l) = belowSuffix prio (prio j) l := by
    rw [hpos]
    exact keyDrop _ _ hsplit
  refine ⟨?_, ?_, ?_, enqueueInsert_sorted prio l j hl, enqueue_p_sorted prio w jobs hw⟩
  · rw [htake, hdrop]
    exact enqueueInsert_eq_parts prio l j
  · intro x hx
    rw [hdrop] at hx
    exact mem_belowSuffix_lt prio (prio j) l x hx
  · intro x hx hge
    rw [htake]
    rw [← hsplit] at hx
    rcases List.mem_append.1 hx with hf | hs
    · exact hf
    · have := mem_belowSuffix_lt prio (prio j) l x hs
      omega

/-- Witness for C2 at a concrete input: jobs 1, 2, 3 queued with priorities
-1, -2, -3; job 9 with priority -2 is inserted after job 2 of equal
priority and before job 3, and the list stays sorted. -/
theorem enqueue_p_priority_insertion_witness :
    SortedByPrio (fun j => if j = 9 then -2 else -(j : Int)) [1, 2, 3] ∧
    enqueueInsert (fun j => if j = 9 then -2 else -(j : Int)) [1, 2, 3] 9 =
      [1, 2, 9, 3] ∧
    SortedByPrio (fun j => if j = 9 then -2 else -(j : Int))
      (enqueueInsert (fun j => if j = 9 then -2 else -(j : Int)) [1, 2, 3] 9) := by
  have hl : SortedByPrio (fun j => if j = 9 then -2 else -(j : Int)) [1, 2, 3] := by
    unfold SortedByPrio
    decide
  have h := enqueue_p_priority_insertion (fun j => if j = 9 then -2 else -(j : Int))
    [1, 2, 3] 9 (initialWeaver 4) [] hl (by unfold SortedByPrio; decide)
  have heq : enqueueInsert (fun j => if j = 9 then -2 else -(j : Int)) [1, 2, 3] 9 =
      [1, 2, 9, 3] := by decide
  exact ⟨hl, heq, heq ▸ h.2.2.2.1⟩

/-! ## Helper lemmas: the assignment walk -/

lemma takeFirstExecutable_eq_none (pol : Nat → List Bool) (l : List Nat)
    (h : ∀ j ∈ l, canExecJob pol j = false) :
    takeFirstExecutable pol l = none := by
  induction l with
  | nil => rfl
  | cons j rest ih =>
    rw [takeFirstExecutable]
    rw [h j (List.mem_cons_self j rest)]
    simp only [Bool.false_eq_true, if_false]
    rw [ih (fun x hx => h x (List.mem_cons_of_mem j hx))]

lemma takeFirstExecutable_eq_first (pol : Nat → List Bool) (l : List Nat)
    (i : Nat) (hi : i < l.length)
    (hcan : canExecJob pol (l.get ⟨i, hi⟩) = true)
    (hmin : ∀ k (hk : k < i), canExecJob pol (l.get ⟨k, lt_trans hk hi⟩) = false) :
    takeFirstExecutable pol l = some (l.get ⟨i, hi⟩, l.eraseIdx i) := by
  induction l generalizing i with
  | nil => simp at hi
  | cons j rest ih =>
    cases i with
    | zero =>
      rw [takeFirstExecutable]
      simp only [List.get] at hcan
      rw [hcan]
      simp [List.eraseIdx]
    | succ i =>
      have hj : canExecJob pol j = false := by
        have h0 := hmin 0 (Nat.succ_pos i)
        simpa using h0
      rw [takeFirstExecutable, hj]
      simp only [Bool.false_eq_true, if_false]
      have hi2 : i < rest.length := by simpa using hi
      have hrest := ih i hi2 (by simpa using hcan)
        (fun k hk => by
          have := hmin (k + 1) (Nat.succ_lt_succ hk)
          simpa using this)
      rw [hrest]
      simp [List.eraseIdx]

/-- C1 (the applyForWork body, with the parameters the suspend-capable
applyForWork path passes: suspendIfInactive true, justReturning false): if
the state is Suspending and the active count after the wasBusy decrement is
zero, the weaver moves to Suspended and no job is returned; if the state is
not WorkingHard, no job is returned and the assignments are untouched;
otherwise the first candidate in assignment order that canBeExecuted admits
is removed, the active count is incremented and that job is returned; when
no candidate is admissible the thread blocks and no job is returned. -/
theorem takeFirst_applyForWork_spec (pol : Nat → List Bool) (w : Weaver)
    (threadWasBusy : Bool)
    (hbusy : threadWasBusy = true → 0 < w.active) :
    (w.stateId = StateId.Suspending →
      (if threadWasBusy then w.active - 1 else w.active) = 0 →
      (takeFirstAvailableJobOrSuspendOrWait pol w threadWasBusy true false).weaver.stateId =
        StateId.Suspended ∧
      (takeFirstAvailableJobOrSuspendOrWait pol w threadWasBusy true false).job = none) ∧
    (w.stateId ≠ StateId.WorkingHard →
      (takeFirstAvailableJobOrSuspendOrWait pol w threadWasBusy true false).job = none ∧
      (takeFirstAvailableJobOrSuspendOrWait pol w threadWasBusy true false).weaver.assignments =
        w.assignments) ∧
    (w.stateId = StateId.WorkingHard →
      (∀ i (hi : i < w.assignments.length),
        canExecJob pol (w.assignments.get ⟨i, hi⟩) = true →
        (∀ k (hk : k < i), canExecJob pol (w.assignments.get ⟨k, lt_trans hk hi⟩) = false) →
        (takeFirstAvailableJobOrSuspendOrWait pol w threadWasBusy true false).job =
          some (w.assignments.get ⟨i, hi⟩) ∧
        (takeFirstAvailableJobOrSuspendOrWait pol w threadWasBusy true false).weaver.assignments =
          w.assignments.eraseIdx i ∧
        (takeFirstAvailableJobOrSuspendOrWait pol w threadWasBusy true false).weaver.active =
          (if threadWasBusy then w.active - 1 else w.active) + 1) ∧
      ((∀ j ∈ w.assignments, canExecJob pol j = false) →
        (takeFirstAvailableJobOrSuspendOrWait pol w threadWasBusy true false).job = none ∧
        (takeFirstAvailableJobOrSuspendOrWait pol w threadWasBusy true false).blocked = true ∧
        (takeFirstAvailableJobOrSuspendOrWait pol w threadWasBusy true false).weaver.assignments =
          w.assignments)) := by
  refine ⟨?_, ?_, ?_⟩
  · intro hss ha0
    cases threadWasBusy <;>
      simp_all [takeFirstAvailableJobOrSuspendOrWait]
  · intro hne
    cases threadWasBusy <;>
    · simp only [takeFirstAvailableJobOrSuspendOrWait]
      split_ifs <;> simp_all
  · intro hwh
    constructor
    · intro i hi hcan hmin
      have hfind := takeFirstExecutable_eq_first pol w.assignments i hi hcan hmin
      cases threadWasBusy <;>
        simp_all [takeFirstAvailableJobOrSuspendOrWait]
    · intro hnone
      have hfind := takeFirstExecutable_eq_none pol w.assignments hnone
      cases threadWasBusy <;>
        simp_all [takeFirstAvailableJobOrSuspendOrWait]

/-- Witness for C1 at a concrete input: state WorkingHard, queue holding
job 1 (whose single policy refuses) then job 2 (no policies); job 2 is
selected, removed, and the active count rises to 1. -/
theorem takeFirst_applyForWork_spec_witness :
    (takeFirstAvailableJobOrSuspendOrWait (fun j => if j = 1 then [false] else [])
      { assignments := [1, 2], status := fun _ => JobStatus.Queued, active := 0,
        stateId := StateId.WorkingHard, inventory := [false], inventoryMax := 4 }
      false true false).job = some 2 ∧
    (takeFirstAvailableJobOrSuspendOrWait (fun j => if j = 1 then [false] else [])
      { assignments := [1, 2], status := fun _ => JobStatus.Queued, active := 0,
        stateId := StateId.WorkingHard, inventory := [false], inventoryMax := 4 }
      false true false).weaver.assignments = [1] ∧
    (takeFirstAvailableJobOrSuspendOrWait (fun j => if j = 1 then [false] else [])
      { assignments := [1, 2], status := fun _ => JobStatus.Queued, active := 0,
        stateId := StateId.WorkingHard, inventory := [false], inventoryMax := 4 }
      false true false).weaver.active = 1 := by
  have h := (takeFirst_applyForWork_spec (fun j => if j = 1 then [false] else [])
    { assignments := [1, 2], status := fun _ => JobStatus.Queued, active := 0,
      stateId := StateId.WorkingHard, inventory := [false], inventoryMax := 4 }
    false (by simp)).2.2 rfl
  have h3 := h.1 1 (by decide) (by decide)
    (fun k hk => by
      have hk0 : k = 0 := by omega
      subst hk0
      rfl)
  exact ⟨by simpa using h3.1, by simpa using h3.2.1, by simpa using h3.2.2⟩

/-! ## Helper lemma: the removal after the dequeue callback -/

lemma erase_after_callback (a1 : List Nat) (job : Nat)
    (honce : a1.count job ≤ 1) : job ∉ a1.eraseIdx (a1.indexOf job) := by
  rw [List.eraseIdx_indexOf_eq_erase]
  intro hmem
  have hc := List.count_pos_iff.2 hmem
  rw [List.count_erase_self] at hc
  omega

/-- C6: dequeue_p(job) returns true exactly when the job is queued; then
aboutToBeDequeued was delivered, the job is gone from the assignments, its
status is New and jobFinished was signalled; otherwise nothing changed and
nothing was signalled.  The hypotheses say the aboutToBeDequeued callback
keeps the job in the list and that the job is queued at most once (the
invariant the surrounding code asserts). -/
theorem dequeue_single_spec (cb : List Nat → List Nat) (w : Weaver) (job : Nat)
    (hkeep : job ∈ w.assignments → job ∈ cb w.assignments)
    (honce : (cb w.assignments).count job ≤ 1) :
    ((dequeue_single cb w job).found = true ↔ job ∈ w.assignments) ∧
    (job ∈ w.assignments →
      (dequeue_single cb w job).aboutToBeDequeuedDelivered = true ∧
      job ∉ (dequeue_single cb w job).weaver.assignments ∧
      (dequeue_single cb w job).weaver.status job = JobStatus.New ∧
      (dequeue_single cb w job).jobFinishedSignaled = true) ∧
    (job ∉ w.assignments →
      (dequeue_single cb w job).weaver = w ∧
      (dequeue_single cb w job).found = false ∧
      (dequeue_single cb w job).aboutToBeDequeuedDelivered = false ∧
      (dequeue_single cb w job).jobFinishedSignaled = false) := by
  by_cases hmem : job ∈ w.assignments
  · have hc : w.assignments.contains job = true := List.elem_iff.2 hmem
    refine ⟨?_, ?_, ?_⟩
    · simp [dequeue_single, hc, hmem]
    · intro _
      refine ⟨?_, ?_, ?_, ?_⟩
      · simp [dequeue_single, hc, hmem]
      · simpa [dequeue_single, hc, hmem] using erase_after_callback (cb w.assignments) job honce
      · simp [dequeue_single, hc, hmem, Function.update_same]
      · simp [dequeue_single, hc, hmem]
    · intro h
      exact absurd hmem h
  · have hc : w.assignments.contains job = false := by
      simpa using fun h => hmem (List.elem_iff.1 h)
    refine ⟨?_, ?_, ?_⟩
    · simp [dequeue_single, hc, hmem]
    · intro h
      exact absurd h hmem
    · intro _
      simp [dequeue_single, hc, hmem]

/-- Witness for C6 at a concrete input: job 5 is queued alone and its
callback is inert; the dequeue finds it, removes it, resets its status to
New and signals jobFinished. -/
theorem dequeue_single_spec_witness :
    (5 : Nat) ∈ [5] ∧
    (dequeue_single (fun l => l)
      { assignments := [5], status := fun _ => JobStatus.Queued, active := 0,
        stateId := StateId.WorkingHard, inventory := [], inventoryMax := 4 }
      5).found = true ∧
    (5 : Nat) ∉ (dequeue_single (fun l => l)
      { assignments := [5], status := fun _ => JobStatus.Queued, active := 0,
        stateId := StateId.WorkingHard, inventory := [], inventoryMax := 4 }
      5).weaver.assignments ∧
    (dequeue_single (fun l => l)
      { assignments := [5], status := fun _ => JobStatus.Queued, active := 0,
        stateId := StateId.WorkingHard, inventory := [], inventoryMax := 4 }
      5).weaver.status 5 = JobStatus.New ∧
    (dequeue_single (fun l => l)
      { assignments := [5], status := fun _ => JobStatus.Queued, active := 0,
        stateId := StateId.WorkingHard, inventory := [], inventoryMax := 4 }
      5).jobFinishedSignaled = true := by
  have h := dequeue_single_spec (fun l => l)
    { assignments := [5], status := fun _ => JobStatus.Queued, active := 0,
      stateId := StateId.WorkingHard, inventory := [], inventoryMax := 4 }
    5 (fun hm => hm) (by decide)
  have hmem : (5 : Nat) ∈ [5] := by decide
  have h2 := h.2.1 hmem
  exact ⟨hmem, h.1.2 hmem, h2.2.1, h2.2.2.1, h2.2.2.2⟩

/-- C10: when the single-job dequeue succeeds, the job is absent from the
assignment list afterwards even if the callback itself removed other jobs:
the removal position is looked up again in the post-callback list. -/
theorem dequeue_single_after_callback (cb : List Nat → List Nat) (w : Weaver) (job : Nat)
    (hkeep : job ∈ w.assignments → job ∈ cb w.assignments)
    (honce : (cb w.assignments).count job ≤ 1) :
    (dequeue_single cb w job).found = true →
    job ∉ (dequeue_single cb w job).weaver.assignments ∧
    (dequeue_single cb w job).weaver.assignments = (cb w.assignments).erase job := by
  intro hfound
  have hmem : job ∈ w.assignments := by
    by_contra hmem
    have hc : w.assignments.contains job = false := by
      simpa using fun h => hmem (List.elem_iff.1 h)
    rw [dequeue_single, hc] at hfound
    simp at hfound
  have hc : w.assignments.contains job = true := List.elem_iff.2 hmem
  constructor
  · simpa [dequeue_single, hc, hmem] using erase_after_callback (cb w.assignments) job honce
  · simp [dequeue_single, hc, hmem, List.eraseIdx_indexOf_eq_erase]

/-- Witness for C10 at a concrete input: jobs 5 and 9 are queued and the
callback of job 9 removes job 5 (as a collection's callback would); the
dequeue of job 9 still removes job 9 itself, leaving the list empty. -/
theorem dequeue_single_after_callback_witness :
    (dequeue_single (fun l => l.erase 5)
      { assignments := [5, 9], status := fun _ => JobStatus.Queued, active := 0,
        stateId := StateId.WorkingHard, inventory := [], inventoryMax := 4 }
      9).found = true ∧
    (9 : Nat) ∉ (dequeue_single (fun l => l.erase 5)
      { assignments := [5, 9], status := fun _ => JobStatus.Queued, active := 0,
        stateId := StateId.WorkingHard, inventory := [], inventoryMax := 4 }
      9).weaver.assignments ∧
    (dequeue_single (fun l => l.erase 5)
      { assignments := [5, 9], status := fun _ => JobStatus.Queued, active := 0,
        stateId := StateId.WorkingHard, inventory := [], inventoryMax := 4 }
      9).weaver.assignments = [] := by
  have hfound : (dequeue_single (fun l => l.erase 5)
      { assignments := [5, 9], status := fun _ => JobStatus.Queued, active := 0,
        stateId := StateId.WorkingHard, inventory := [], inventoryMax := 4 }
      9).found = true := by decide
  have h := dequeue_single_after_callback (fun l => l.erase 5)
    { assignments := [5, 9], status := fun _ => JobStatus.Queued, active := 0,
      stateId := StateId.WorkingHard, inventory := [], inventoryMax := 4 }
    9 (fun _ => by decide) (by decide) hfound
  exact ⟨hfound, h.1, by simpa using h.2⟩

/-- C5 (amended): the remove-all dequeue delivers aboutToBeDequeued to
every queued job, in queue order, before clearing the list; unlike the
single-job dequeue it does not reset any job status and does not signal
jobFinished. -/
theorem dequeue_all_spec (w : Weaver) :
    (dequeue_all w).delivered = w.assignments ∧
    (dequeue_all w).weaver.assignments = [] ∧
    (dequeue_all w).weaver.status = w.status ∧
    (dequeue_all w).jobFinishedSignaled = false :=
  ⟨rfl, rfl, rfl, rfl⟩

/-- Counterexample for C5 as stated: job 7 is queued with status Queued;
the remove-all dequeue delivers aboutToBeDequeued to it, but its status
does not become New and jobFinished is not signalled, unlike the single-job
dequeue. -/
theorem dequeue_all_no_status_reset :
    (dequeue_all
      { assignments := [7], status := fun _ => JobStatus.Queued, active := 0,
        stateId := StateId.WorkingHard, inventory := [], inventoryMax := 4 }).delivered = [7] ∧
    (dequeue_all
      { assignments := [7], status := fun _ => JobStatus.Queued, active := 0,
        stateId := StateId.WorkingHard, inventory := [], inventoryMax := 4 }).weaver.status 7 =
      JobStatus.Queued ∧
    ¬ ((dequeue_all
        { assignments := [7], status := fun _ => JobStatus.Queued, active := 0,
          stateId := StateId.WorkingHard, inventory := [], inventoryMax := 4 }).weaver.status 7 =
          JobStatus.New ∧
       (dequeue_all
        { assignments := [7], status := fun _ => JobStatus.Queued, active := 0,
          stateId := StateId.WorkingHard, inventory := [], inventoryMax := 4 }).jobFinishedSignaled =
          true) := by
  refine ⟨rfl, rfl, ?_⟩
  intro h
  exact absurd h.1 (by decide)

/-- C4: on an elementFinished call with selfIsExecuting set, the whole
element list is handed to the weaver in one batched enqueue, the job
counter is set to the element count plus one (so it reads the element
count after this call's own decrement) and selfIsExecuting is cleared;
every call decrements the job counter by one; and exactly when the
decrement reaches zero finalCleanup runs (policy resources freed, status
Success, api binding cleared), defaultEnd is invoked on the outermost self
wrapper and the self reference is dropped. -/
theorem elementFinished_spec (c : Coll) :
    (c.selfIsExecuting = true →
      (elementFinished c).batch = some c.elements ∧
      (elementFinished c).coll.selfIsExecuting = false ∧
      (elementFinished c).coll.jobCounter = ((c.elements.length : Int) + 1) - 1) ∧
    (c.selfIsExecuting = false → (elementFinished c).batch = none) ∧
    (elementFinished c).coll.jobCounter =
      (if c.selfIsExecuting then (c.elements.length : Int) + 1 else c.jobCounter) - 1 ∧
    ((elementFinished c).cleanupRan = true ↔
      (if c.selfIsExecuting then (c.elements.length : Int) + 1 else c.jobCounter) - 1 = 0) ∧
    ((elementFinished c).cleanupRan = true →
      (elementFinished c).coll.policiesFreed = true ∧
      (elementFinished c).coll.status = JobStatus.Success ∧
      (elementFinished c).coll.apiBound = false ∧
      (elementFinished c).defaultEndInvoked = true ∧
      (elementFinished c).coll.selfHeld = false) := by
  cases hse : c.selfIsExecuting <;>
    by_cases hz : (if c.selfIsExecuting then (c.elements.length : Int) + 1 else c.jobCounter) - 1 = 0 <;>
    simp_all [elementFinished, finalCleanup]

/-- Witness for C4 at a concrete input: a collection of two elements on its
first elementFinished call enqueues both elements in one batch, sets the
counter to 2 and does not clean up yet. -/
theorem elementFinished_spec_witness :
    (elementFinished
      { elements := [1, 2], jobCounter := 0, jobsStarted := 0, selfIsExecuting := true,
        status := JobStatus.Running, apiBound := true, policiesFreed := false,
        selfHeld := true }).batch = some [1, 2] ∧
    (elementFinished
      { elements := [1, 2], jobCounter := 0, jobsStarted := 0, selfIsExecuting := true,
        status := JobStatus.Running, apiBound := true, policiesFreed := false,
        selfHeld := true }).coll.selfIsExecuting = false ∧
    (elementFinished
      { elements := [1, 2], jobCounter := 0, jobsStarted := 0, selfIsExecuting := true,
        status := JobStatus.Running, apiBound := true, policiesFreed := false,
        selfHeld := true }).coll.jobCounter = 2 ∧
    (elementFinished
      { elements := [1, 2], jobCounter := 0, jobsStarted := 0, selfIsExecuting := true,
        status := JobStatus.Running, apiBound := true, policiesFreed := false,
        selfHeld := true }).cleanupRan = false := by
  have h := elementFinished_spec
    { elements := [1, 2], jobCounter := 0, jobsStarted := 0, selfIsExecuting := true,
      status := JobStatus.Running, apiBound := true, policiesFreed := false,
      selfHeld := true }
  have h1 := h.1 rfl
  refine ⟨h1.1, h1.2.1, by simpa using h1.2.2, ?_⟩
  have h4 := h.2.2.2.1
  by_contra hc
  have : (elementFinished
      { elements := [1, 2], jobCounter := 0, jobsStarted := 0, selfIsExecuting := true,
        status := JobStatus.Running, apiBound := true, policiesFreed := false,
        selfHeld := true }).cleanupRan = true := by
    cases hcr : (elementFinished
      { elements := [1, 2], jobCounter := 0, jobsStarted := 0, selfIsExecuting := true,
        status := JobStatus.Running, apiBound := true, policiesFreed := false,
        selfHeld := true }).cleanupRan
    · exact absurd hcr hc
    · rfl
  have := h4.1 this
  simp at this

/-- C7: when a queued collection is stopped, either the collection itself
is dequeued from the weaver (when still in the assignment list) or every
element is dequeued individually; in both paths, when the job counter had
not yet reached zero, finalCleanup runs, so the queue-policy resources held
by self are freed. -/
theorem stopColl_spec (selfWasQueued : Bool) (c : Coll) (hapi : c.apiBound = true) :
    (selfWasQueued = true → (stopColl selfWasQueued c).selfDequeued = true) ∧
    (selfWasQueued = false → (stopColl selfWasQueued c).calls = c.elements) ∧
    (c.jobCounter ≠ 0 → (stopColl selfWasQueued c).coll.policiesFreed = true) := by
  cases selfWasQueued <;>
    by_cases hz : c.jobCounter = 0 <;>
    simp_all [stopColl, aboutToBeDequeuedColl, dequeueElements, finalCleanup]

/-- Witness for C7 at a concrete input: a bound collection with elements 4
and 5 and a pending counter, stopped while no longer in the weaver's list:
both elements are dequeued individually and the policy resources are
freed. -/
theorem stopColl_spec_witness :
    (stopColl false
      { elements := [4, 5], jobCounter := 2, jobsStarted := 1, selfIsExecuting := false,
        status := JobStatus.Running, apiBound := true, policiesFreed := false,
        selfHeld := true }).calls = [4, 5] ∧
    (stopColl false
      { elements := [4, 5], jobCounter := 2, jobsStarted := 1, selfIsExecuting := false,
        status := JobStatus.Running, apiBound := true, policiesFreed := false,
        selfHeld := true }).coll.policiesFreed = true := by
  have h := stopColl_spec false
    { elements := [4, 5], jobCounter := 2, jobsStarted := 1, selfIsExecuting := false,
      status := JobStatus.Running, apiBound := true, policiesFreed := false,
      selfHeld := true } rfl
  exact ⟨h.2.1 rfl, h.2.2 (by decide)⟩

/-! ## Helper lemmas: active count versus inventory -/

/-- The per-weaver protocol invariant: the active count equals the number
of busy threads in the inventory. -/
def WeaverInv (w : Weaver) : Prop :=
  w.active = busyCount w

lemma count_true_set (l : List Bool) (t : Nat) (b : Bool) (ht : t < l.length) :
    (l.set t b).count true + (if l.getD t false then 1 else 0) =
      l.count true + (if b then 1 else 0) := by
  induction l generalizing t with
  | nil => simp at ht
  | cons a rest ih =>
    cases t with
    | zero => cases a <;> cases b <;> simp [List.count_cons]
    | succ t =>
      have ht2 : t < rest.length := by simpa using ht
      have h := ih t ht2
      have hset : (a :: rest).set (t + 1) b = a :: rest.set t b := rfl
      have hgetD : (a :: rest).getD (t + 1) false = rest.getD t false := rfl
      rw [hset, hgetD]
      cases hgd : rest.getD t false <;> rw [hgd] at h <;>
        cases a <;> cases b <;> simp [List.count_cons] at h ⊢ <;> omega

lemma getD_true_count_pos (l : List Bool) (t : Nat) (ht : t < l.length)
    (hg : l.getD t false = true) : 0 < l.count true := by
  induction l generalizing t with
  | nil => simp at ht
  | cons a rest ih =>
    cases t with
    | zero =>
      simp only [List.getD_cons_zero] at hg
      simp [List.count_cons, hg]
    | succ t =>
      have ht2 : t < rest.length := by simpa using ht
      have h := ih t ht2 (by simpa using hg)
      cases a <;> simp_all [List.count_cons]

lemma takeFirst_inventory (pol : Nat → List Bool) (w : Weaver)
    (busy susp just : Bool) :
    (takeFirstAvailableJobOrSuspendOrWait pol w busy susp just).weaver.inventory =
      w.inventory := by
  simp only [takeFirstAvailableJobOrSuspendOrWait]
  repeat' split
  all_goals rfl

lemma takeFirst_active_balance (pol : Nat → List Bool) (w : Weaver)
    (busy susp just : Bool) (hbusy : busy = true → 0 < w.active) :
    (takeFirstAvailableJobOrSuspendOrWait pol w busy susp just).weaver.active +
      (if busy then 1 else 0) =
    w.active +
      (if (takeFirstAvailableJobOrSuspendOrWait pol w busy susp just).job.isSome
        then 1 else 0) := by
  simp only [takeFirstAvailableJobOrSuspendOrWait]
  repeat' split
  all_goals try simp_all
  all_goals omega

lemma adjustInventory_active (w : Weaver) (n : Nat) :
    (adjustInventory w n).active = w.active := by
  rw [adjustInventory]
  split <;> rfl

lemma adjustInventory_busyCount (w : Weaver) (n : Nat) :
    busyCount (adjustInventory w n) = busyCount w := by
  rw [adjustInventory]
  split
  · simp [busyCount, List.count_append, List.count_replicate]
  · rfl

lemma adjustInventory_length_le (w : Weaver) (n : Nat) :
    w.inventory.length ≤ (adjustInventory w n).inventory.length := by
  rw [adjustInventory]
  split <;> simp

lemma enqueue_p_active (prio : Nat → Int) (jobs : List (Option Nat)) (w : Weaver) :
    (enqueue_p prio w jobs).active = w.active ∧
    busyCount (enqueue_p prio w jobs) = busyCount w ∧
    w.inventory.length ≤ (enqueue_p prio w jobs).inventory.length := by
  induction jobs generalizing w with
  | nil => exact ⟨rfl, rfl, le_refl _⟩
  | cons oj rest ih =>
    cases oj with
    | none => exact ih w
    | some job =>
      have hred : enqueue_p prio w (some job :: rest) = enqueue_p prio
          { adjustInventory w 1 with
            assignments := enqueueInsert prio (adjustInventory w 1).assignments job,
            status := Function.update (adjustInventory w 1).status job JobStatus.Queued }
          rest := rfl
      rw [hred]
      have h := ih { adjustInventory w 1 with
        assignments := enqueueInsert prio (adjustInventory w 1).assignments job,
        status := Function.update (adjustInventory w 1).status job JobStatus.Queued }
      refine ⟨?_, ?_, ?_⟩
      · rw [h.1]
        exact adjustInventory_active w 1
      · rw [h.2.1]
        exact adjustInventory_busyCount w 1
      · exact le_trans (adjustInventory_length_le w 1) h.2.2

lemma dequeue_single_active (cb : List Nat → List Nat) (w : Weaver) (job : Nat) :
    (dequeue_single cb w job).weaver.active = w.active ∧
    (dequeue_single cb w job).weaver.inventory = w.inventory := by
  rw [dequeue_single]
  split <;> exact ⟨rfl, rfl⟩

lemma step_preserves_inv (prio : Nat → Int) (pol : Nat → List Bool)
    (w w' : Weaver) (hstep : Step prio pol w w') (hw : WeaverInv w) :
    WeaverInv w' := by
  cases hstep with
  | enqueue jobs =>
    have h := enqueue_p_active prio jobs w
    rw [WeaverInv, h.1, h.2.1]
    exact hw
  | dequeueSingle cb job =>
    have h := dequeue_single_active cb w job
    rw [WeaverInv, h.1, busyCount, h.2]
    exact hw
  | dequeueAll => exact hw
  | applyForWork t susp just ht =>
    have hbusy : w.inventory.getD t false = true → 0 < w.active := by
      intro hg
      rw [hw, busyCount]
      exact getD_true_count_pos w.inventory t ht hg
    have hbal := takeFirst_active_balance pol w (w.inventory.getD t false) susp just hbusy
    have hinv := takeFirst_inventory pol w (w.inventory.getD t false) susp just
    have hcount := count_true_set w.inventory t
      (takeFirstAvailableJobOrSuspendOrWait pol w (w.inventory.getD t false)
        susp just).job.isSome ht
    rw [WeaverInv, applyStep]
    simp only [hinv, busyCount]
    rw [hw, busyCount] at hbal
    omega
  | setMax cap hcap => exact hw
  | setState id => exact hw

lemma reach_preserves_inv (prio : Nat → Int) (pol : Nat → List Bool)
    (w w' : Weaver) (hreach : Reach prio pol w w') (hw : WeaverInv w) :
    WeaverInv w' := by
  induction hreach with
  | refl => exact hw
  | tail hsteps hstep ih => exact step_preserves_inv prio pol _ _ hstep ih

lemma step_inventory_monotone (prio : Nat → Int) (pol : Nat → List Bool)
    (w w' : Weaver) (hstep : Step prio pol w w') :
    w.inventory.length ≤ w'.inventory.length := by
  cases hstep with
  | enqueue jobs => exact (enqueue_p_active prio jobs w).2.2
  | dequeueSingle cb job =>
    exact le_of_eq (congrArg List.length (dequeue_single_active cb w job).2.symm)
  | dequeueAll => exact le_refl _
  | applyForWork t susp just ht =>
    rw [applyStep]
    simp only [List.length_set, takeFirst_inventory]
    exact le_refl _
  | setMax cap hcap => exact le_refl _
  | setState id => exact le_refl _

/-- C8 (amended): at every state reachable from the freshly constructed
weaver, the active count is at most currentNumberOfThreads_p; adjustInventory
never shrinks the inventory, never changes the cap and never grows the
inventory beyond the cap when the inventory was within the cap; and no step
of the system (shutdown excluded) shrinks the inventory.  The remaining
bound of the original claim, currentNumberOfThreads_p at most
maximumNumberOfThreads_p, does not hold across setMaximumNumberOfThreads_p:
lowering the cap leaves the inventory unshrunk. -/
theorem weaver_thread_bounds (prio : Nat → Int) (pol : Nat → List Bool) (m : Int) :
    (∀ w, Reach prio pol (initialWeaver m) w →
      w.active ≤ currentNumberOfThreads_p w) ∧
    (∀ (w : Weaver) (n : Nat),
      w.inventory.length ≤ (adjustInventory w n).inventory.length ∧
      ((w.inventory.length : Int) ≤ w.inventoryMax →
        (((adjustInventory w n).inventory.length : Int) ≤ w.inventoryMax)) ∧
      (adjustInventory w n).inventoryMax = w.inventoryMax) ∧
    (∀ w w', Step prio pol w w' →
      currentNumberOfThreads_p w ≤ currentNumberOfThreads_p w') := by
  refine ⟨?_, ?_, ?_⟩
  · intro w hreach
    have hinv : WeaverInv w :=
      reach_preserves_inv prio pol (initialWeaver m) w hreach rfl
    rw [hinv, busyCount, currentNumberOfThreads_p]
    exact List.count_le_length true w.inventory
  · intro w n
    refine ⟨adjustInventory_length_le w n, ?_, ?_⟩
    · intro hle
      rw [adjustInventory]
      split
      · rename_i hres
        simp only [List.length_append, List.length_replicate]
        have hmin : min (w.inventoryMax - (w.inventory.length : Int)).toNat n ≤
            (w.inventoryMax - (w.inventory.length : Int)).toNat := min_le_left _ _
        have htn : (((w.inventoryMax - (w.inventory.length : Int)).toNat : Int)) =
            w.inventoryMax - w.inventory.length :=
          Int.toNat_of_nonneg (le_of_lt hres)
        push_cast
        omega
      · exact hle
    · rw [adjustInventory]
      split <;> rfl
  · exact fun w w' => step_inventory_monotone prio pol w w'

/-- Witness for C8 (amended) at a concrete input: the fresh weaver itself
(reached by the empty trace), and one concrete adjustInventory call that
creates a single thread. -/
theorem weaver_thread_bounds_witness :
    (initialWeaver 4).active ≤ currentNumberOfThreads_p (initialWeaver 4) ∧
    currentNumberOfThreads_p (adjustInventory (initialWeaver 4) 1) = 1 := by
  have h := (weaver_thread_bounds (fun _ => 0) (fun _ => []) 4).1
    (initialWeaver 4) Relation.ReflTransGen.refl
  exact ⟨h, by decide⟩

/-- Counterexample for C8 as stated: enqueue two jobs (the inventory grows
to two threads), then lower the cap to one; the reached state has
currentNumberOfThreads_p of two, above maximumNumberOfThreads_p of one,
because setMaximumNumberOfThreads_p does not shrink the inventory. -/
theorem weaver_current_exceeds_max :
    Reach (fun _ => 0) (fun _ => []) (initialWeaver 4)
      (setMaximumNumberOfThreads_p
        (enqueue_p (fun _ => 0) (initialWeaver 4) [some 1, some 2]) 1) ∧
    ¬ ((currentNumberOfThreads_p
          (setMaximumNumberOfThreads_p
            (enqueue_p (fun _ => 0) (initialWeaver 4) [some 1, some 2]) 1) : Int) ≤
        maximumNumberOfThreads_p
          (setMaximumNumberOfThreads_p
            (enqueue_p (fun _ => 0) (initialWeaver 4) [some 1, some 2]) 1)) := by
  constructor
  · exact Relation.ReflTransGen.tail
      (Relation.ReflTransGen.single (Step.enqueue (initialWeaver 4) [some 1, some 2]))
      (Step.setMax (enqueue_p (fun _ => 0) (initialWeaver 4) [some 1, some 2]) 1
        (by norm_num))
  · decide

/-- Witness for C5 (amended) at a concrete input: with job 3 queued, the
remove-all dequeue notifies job 3, empties the list, keeps every status and
stays silent on jobFinished. -/
theorem dequeue_all_spec_witness :
    (dequeue_all
      { assignments := [3], status := fun _ => JobStatus.Queued, active := 0,
        stateId := StateId.WorkingHard, inventory := [], inventoryMax := 4 }).delivered =
      [3] ∧
    (dequeue_all
      { assignments := [3], status := fun _ => JobStatus.Queued, active := 0,
        stateId := StateId.WorkingHard, inventory := [], inventoryMax := 4 }).weaver.assignments =
      [] ∧
    (dequeue_all
      { assignments := [3], status := fun _ => JobStatus.Queued, active := 0,
        stateId := StateId.WorkingHard, inventory := [], inventoryMax := 4 }).jobFinishedSignaled =
      false := by
  have h := dequeue_all_spec
    { assignments := [3], status := fun _ => JobStatus.Queued, active := 0,
      stateId := StateId.WorkingHard, inventory := [], inventoryMax := 4 }
  exact ⟨h.1, h.2.1, h.2.2.2⟩
